import Mathlib

/-!
Shallow embedding of the portfolio accounting and rebalancing engine from
`portfolio.py` (class `Portfolio`).

Modelling conventions:
* Python `float` amounts (cash, prices, cost basis) are embedded as `ℚ`;
  Python `int` share counts and quantities as `ℤ`.
* `self.portfolio` is a `dict` keyed by symbol; Python 3.7+ dicts preserve
  insertion order and have unique keys, so it is embedded as an association
  list read through first-match lookup (`dictGet`), mutated in place by
  `updateH` (which rewrites the entry for a key without reordering).
* `self.data` maps a symbol to its historical table; a table maps a date
  string (the `Unnamed: 0` column) to the `open` price.
* Python exceptions are embedded as `Except PyError`: `KeyError` from a
  `dict` subscript on a missing key, `TypeError` from arithmetic or
  comparison on the `None` that `get_price` returns when a lookup fails,
  `ZeroDivisionError` from dividing by a zero share count or price.
  When an exception escapes an operation, the exceptional outcome (not the
  partially mutated object) is what the embedding records.
* `int(x)` applied to a Python float truncates toward zero: `pyInt`.
* `balance_portfolio` additionally records the trace of `bulk_sell` /
  `bulk_buy` instructions it issues (`Event`), so that the ordering of the
  two phases is open to inspection.
-/

/-- Python exceptions that the portfolio code can raise. -/
inductive PyError : Type
  | keyError (key : String)
  | typeError
  | zeroDivisionError
deriving DecidableEq

/-- Per-symbol state: the value of `self.portfolio[symbol]`, a dict with
keys `shares` (an int) and `cost` (a float running cost basis). -/
structure Holding : Type where
  shares : ℤ
  cost : ℚ
deriving DecidableEq

/-- One historical table (`self.data[symbol]`): rows of date and open price. -/
abbrev Table : Type := List (String × ℚ)

/-- The whole of `self.data`: symbol to table, in load order. -/
abbrev PriceData : Type := List (String × Table)

/-- State of a `Portfolio` instance: `self.portfolio`, `self.cash`,
`self.data` and `self.deposit_track`. -/
structure Portfolio : Type where
  portfolio : List (String × Holding)
  cash : ℚ
  data : PriceData
  deposit_track : ℚ
deriving DecidableEq

/-- First-match association-list lookup: the dict subscript `m[k]` (as an
`Option`, callers decide whether a miss is `KeyError` or a branch). -/
def dictGet {β : Type} : List (String × β) → String → Option β
  | [], _ => none
  | kv :: rest, s => if kv.1 = s then some kv.2 else dictGet rest s

/-- In-place mutation of the holding stored under a key: rewrites the entry
for `k` (unique in a Python dict) and leaves every other entry alone. -/
def updateH (l : List (String × Holding)) (k : String) (f : Holding → Holding) :
    List (String × Holding) :=
  l.map (fun kv => if kv.1 = k then (kv.1, f kv.2) else kv)

/-- Removal of every entry stored under a key: `del m[k]` (keys are unique
in a Python dict, so at most one entry is ever removed). -/
def removeKey : List (String × Holding) → String → List (String × Holding)
  | [], _ => []
  | kv :: rest, s => if kv.1 = s then removeKey rest s else kv :: removeKey rest s

/-- Python `int(x)` on a float: truncation toward zero. -/
def pyInt (q : ℚ) : ℤ := if 0 ≤ q then ⌊q⌋ else ⌈q⌉

/-- Method `find_data`: linear search of `self.data` for the symbol's table,
`None` when the symbol has no backing series. -/
def find_data (data : PriceData) (symbol : String) : Option Table :=
  dictGet data symbol

/-- Body of method `get_price` as a function of the stored data: select the
rows whose date column equals `date` and take the opening price of the
first.  Both failure modes of the source (`find_data` returning `None`, the
row selection being empty) are swallowed by its bare `except:` clause, after
which the function falls off the end and returns `None` — the dangling
`ValueError` expression in the handler raises nothing. -/
def get_price_data (data : PriceData) (symbol date : String) : Option ℚ :=
  match find_data data symbol with
  | none => none
  | some df =>
    match df.filter (fun row => row.1 == date) with
    | [] => none
    | row :: _ => some row.2

/-- Method `get_price`. -/
def get_price (p : Portfolio) (symbol date : String) : Option ℚ :=
  get_price_data p.data symbol date

/-- Method `add`: insert a zeroed holding unless the key is already present. -/
def Portfolio.add (p : Portfolio) (symbol : String) : Portfolio :=
  if (dictGet p.portfolio symbol).isSome then p
  else { p with portfolio := p.portfolio ++ [(symbol, ⟨0, 0⟩)] }

/-- Method `remove`: delete the key; the `try`/`except` makes a miss a no-op. -/
def Portfolio.remove (p : Portfolio) (symbol : String) : Portfolio :=
  { p with portfolio := removeKey p.portfolio symbol }

/-- Method `deposit`: add to both `deposit_track` and `cash`. -/
def Portfolio.deposit (p : Portfolio) (amount : ℚ) : Portfolio :=
  { p with cash := p.cash + amount, deposit_track := p.deposit_track + amount }

/-- Method `get_share_count`: dict subscript, so `KeyError` on a missing key. -/
def get_share_count (p : Portfolio) (symbol : String) : Except PyError ℤ :=
  match dictGet p.portfolio symbol with
  | none => Except.error (PyError.keyError symbol)
  | some h => Except.ok h.shares

/-- Method `buy`: fetch the price (comparing `cash` with `None` is a
`TypeError`), and when `cash >= cost` mutate the holding — subscripting on a
symbol that was never added raises `KeyError` before any mutation. -/
def buy (p : Portfolio) (symbol date : String) : Except PyError Portfolio :=
  match get_price p symbol date with
  | none => Except.error PyError.typeError
  | some cost =>
    if p.cash ≥ cost then
      match dictGet p.portfolio symbol with
      | none => Except.error (PyError.keyError symbol)
      | some _ =>
        Except.ok { p with
          portfolio := updateH p.portfolio symbol
            (fun hh => ⟨hh.shares + 1, hh.cost + cost⟩),
          cash := p.cash - cost }
    else Except.ok p

/-- Method `sell`: the price is fetched up front but only consumed on the
mutating path, so a missing symbol (membership is checked before touching
the holding) or an empty position is a silent no-op even when the lookup
failed; with a held symbol and at least one share the average cost is
realised and the sale price credited (using the price when it is `None`
would be a `TypeError`). -/
def sell (p : Portfolio) (symbol date : String) : Except PyError Portfolio :=
  match dictGet p.portfolio symbol with
  | none => Except.ok p
  | some h =>
    if h.shares ≥ 1 then
      match get_price p symbol date with
      | none => Except.error PyError.typeError
      | some price =>
        Except.ok { p with
          portfolio := updateH p.portfolio symbol
            (fun hh => ⟨hh.shares - 1, hh.cost - h.cost / (h.shares : ℚ)⟩),
          cash := p.cash + price }
    else Except.ok p

/-- Method `bulk_buy`: `cost = price * quantity` (a `TypeError` when the
price is `None`), then as `buy` scaled by the quantity; the subscript on a
missing key raises `KeyError`. -/
def bulk_buy (p : Portfolio) (symbol : String) (quantity : ℤ) (date : String) :
    Except PyError Portfolio :=
  match get_price p symbol date with
  | none => Except.error PyError.typeError
  | some price =>
    if p.cash ≥ price * (quantity : ℚ) then
      match dictGet p.portfolio symbol with
      | none => Except.error (PyError.keyError symbol)
      | some _ =>
        Except.ok { p with
          portfolio := updateH p.portfolio symbol
            (fun hh => ⟨hh.shares + quantity, hh.cost + price * (quantity : ℚ)⟩),
          cash := p.cash - price * (quantity : ℚ) }
    else Except.ok p

/-- Method `bulk_sell`: no-op for a missing symbol or when
`shares < quantity`; otherwise `avg_cost = cost / shares` (a
`ZeroDivisionError` when the share count is zero), the holding is reduced
and the proceeds `price * quantity` credited (`TypeError` on a `None`
price). -/
def bulk_sell (p : Portfolio) (symbol : String) (quantity : ℤ) (date : String) :
    Except PyError Portfolio :=
  match dictGet p.portfolio symbol with
  | none => Except.ok p
  | some h =>
    if h.shares ≥ quantity then
      if h.shares = 0 then Except.error PyError.zeroDivisionError
      else
        match get_price p symbol date with
        | none => Except.error PyError.typeError
        | some price =>
          Except.ok { p with
            portfolio := updateH p.portfolio symbol
              (fun hh => ⟨hh.shares - quantity,
                          hh.cost - h.cost / (h.shares : ℚ) * (quantity : ℚ)⟩),
            cash := p.cash + price * (quantity : ℚ) }
    else Except.ok p

/-- Method `max_buy`: `quantity = int(self.cash / price)` (dividing by a
`None` price is a `TypeError`, by a zero price a `ZeroDivisionError`), then
delegate to `bulk_buy`. -/
def max_buy (p : Portfolio) (symbol date : String) : Except PyError Portfolio :=
  match get_price p symbol date with
  | none => Except.error PyError.typeError
  | some price =>
    if price = 0 then Except.error PyError.zeroDivisionError
    else bulk_buy p symbol (pyInt (p.cash / price)) date

/-- Method `value_buy`: refuse (silently) when `amount > cash`, otherwise
buy `int(amount / price)` shares through `bulk_buy`. -/
def value_buy (p : Portfolio) (symbol : String) (amount : ℚ) (date : String) :
    Except PyError Portfolio :=
  if amount > p.cash then Except.ok p
  else
    match get_price p symbol date with
    | none => Except.error PyError.typeError
    | some price =>
      if price = 0 then Except.error PyError.zeroDivisionError
      else bulk_buy p symbol (pyInt (amount / price)) date

/-- Method `max_sell`: read the current share count (`KeyError` when the
symbol is not held) and delegate to `bulk_sell`. -/
def max_sell (p : Portfolio) (symbol date : String) : Except PyError Portfolio :=
  match dictGet p.portfolio symbol with
  | none => Except.error (PyError.keyError symbol)
  | some h => bulk_sell p symbol h.shares date

/-- Loop body of `get_holdings_value`: accumulate `shares * price`;
multiplying a share count by a `None` price is a `TypeError`. -/
def holdings_value_sum (data : PriceData) (date : String) :
    List (String × Holding) → ℚ → Except PyError ℚ
  | [], total => Except.ok total
  | (sym, h) :: rest, total =>
    match get_price_data data sym date with
    | none => Except.error PyError.typeError
    | some pr => holdings_value_sum data date rest (total + (h.shares : ℚ) * pr)

/-- Method `get_holdings_value`. -/
def get_holdings_value (p : Portfolio) (date : String) : Except PyError ℚ :=
  holdings_value_sum p.data date p.portfolio 0

/-- Loop body of `find_most_expensive`: running maximum over the held
symbols' prices, seeded with `0`; comparing `None` with the running maximum
is a `TypeError`. -/
def fme_scan (data : PriceData) (date : String) :
    List (String × Holding) → ℚ → Except PyError ℚ
  | [], maxp => Except.ok maxp
  | (sym, _) :: rest, maxp =>
    match get_price_data data sym date with
    | none => Except.error PyError.typeError
    | some pr => fme_scan data date rest (if maxp < pr then pr else maxp)

/-- Method `find_most_expensive`: returns the running maximum price (a
number), `0` when there are no holdings. -/
def find_most_expensive (p : Portfolio) (date : String) : Except PyError ℚ :=
  fme_scan p.data date p.portfolio 0

/-- One instruction issued by `balance_portfolio`: a call of `bulk_sell` or
of `bulk_buy` with the computed quantity. -/
inductive Event : Type
  | sellEv (symbol : String) (quantity : ℤ)
  | buyEv (symbol : String) (quantity : ℤ)
deriving DecidableEq

/-- First loop of `balance_portfolio`: walk the held symbols; a symbol with
room for at least one more share (`value + price <= weight_cost`) is queued
in `need_purchase`, otherwise `int((value - weight_cost) / price)` shares
are sold at once (dividing by a zero price is a `ZeroDivisionError`).  The
trace records each `bulk_sell` instruction as it is issued. -/
def phase1 (date : String) (wc : ℚ) :
    List String → Portfolio → List String → List Event →
    Except PyError (Portfolio × List String) × List Event
  | [], p, need, evs => (Except.ok (p, need), evs)
  | fund :: rest, p, need, evs =>
    match get_share_count p fund with
    | Except.error e => (Except.error e, evs)
    | Except.ok shares =>
      match get_price p fund date with
      | none => (Except.error PyError.typeError, evs)
      | some price =>
        let value := price * (shares : ℚ)
        if value + price ≤ wc then
          phase1 date wc rest p (need ++ [fund]) evs
        else if price = 0 then (Except.error PyError.zeroDivisionError, evs)
        else
          let quantity := pyInt ((value - wc) / price)
          match bulk_sell p fund quantity date with
          | Except.error e => (Except.error e, evs ++ [Event.sellEv fund quantity])
          | Except.ok p' => phase1 date wc rest p' need (evs ++ [Event.sellEv fund quantity])

/-- Second loop of `balance_portfolio`: for every queued symbol buy
`int((weight_cost - value) / price)` shares through `bulk_buy` (dividing by
a zero price is a `ZeroDivisionError`).  The trace records each `bulk_buy`
instruction as it is issued. -/
def phase2 (date : String) (wc : ℚ) :
    List String → Portfolio → List Event →
    Except PyError Portfolio × List Event
  | [], p, evs => (Except.ok p, evs)
  | fund :: rest, p, evs =>
    match get_share_count p fund with
    | Except.error e => (Except.error e, evs)
    | Except.ok shares =>
      match get_price p fund date with
      | none => (Except.error PyError.typeError, evs)
      | some price =>
        let value := price * (shares : ℚ)
        if price = 0 then (Except.error PyError.zeroDivisionError, evs)
        else
          let quantity := pyInt ((wc - value) / price)
          match bulk_buy p fund quantity date with
          | Except.error e => (Except.error e, evs ++ [Event.buyEv fund quantity])
          | Except.ok p' => phase2 date wc rest p' (evs ++ [Event.buyEv fund quantity])

/-- Method `balance_portfolio`: the guard compares `weight * len(keys)`
against `100` (the source's comment says weights are decimals) and returns
without touching anything when it trips; then `weight_cost` is the weight's
share of cash plus holdings value, the result of `find_most_expensive` is
the feasibility threshold, and the two loops run in order: sells first,
queued buys second. -/
def balance_portfolio (p : Portfolio) (weight : ℚ) (date : String) :
    Except PyError Portfolio × List Event :=
  if 100 < weight * (p.portfolio.length : ℚ) then (Except.ok p, [])
  else
    match get_holdings_value p date with
    | Except.error e => (Except.error e, [])
    | Except.ok hv =>
      match find_most_expensive p date with
      | Except.error e => (Except.error e, [])
      | Except.ok min_price =>
        if (p.cash + hv) * weight < min_price then (Except.ok p, [])
        else
          match phase1 date ((p.cash + hv) * weight) (p.portfolio.map Prod.fst) p [] [] with
          | (Except.error e, evs) => (Except.error e, evs)
          | (Except.ok (p', need), evs) =>
            phase2 date ((p.cash + hv) * weight) need p' evs

/-- Method `even_balance`: `1 / len(self.portfolio.keys())` raises
`ZeroDivisionError` on an empty portfolio; otherwise delegate to
`balance_portfolio` with the even weight. -/
def even_balance (p : Portfolio) (date : String) :
    Except PyError Portfolio × List Event :=
  if p.portfolio.length = 0 then (Except.error PyError.zeroDivisionError, [])
  else balance_portfolio p (1 / (p.portfolio.length : ℚ)) date

/-- Invariant: every holding reachable through the dict has a non-negative
share count. -/
def SharesNonneg (p : Portfolio) : Prop :=
  ∀ s h, dictGet p.portfolio s = some h → 0 ≤ h.shares

/-- Invariant: a holding with zero shares has zero cost basis. -/
def CostZero (p : Portfolio) : Prop :=
  ∀ s h, dictGet p.portfolio s = some h → h.shares = 0 → h.cost = 0

/-- All prices recorded in the historical data are positive. -/
def PosData (data : PriceData) : Prop :=
  ∀ s d pr, get_price_data data s d = some pr → 0 < pr

/-- Scenario 1 start state: cash 1000, `A` held with nothing bought yet,
`A` priced 100 on date `d`. -/
def p_scn1 : Portfolio := ⟨[("A", ⟨0, 0⟩)], 1000, [("A", [("d", 100)])], 1000⟩

/-- Scenario 2 start state: cash 900, one share of `A` at cost 100. -/
def p_scn2 : Portfolio := ⟨[("A", ⟨1, 100⟩)], 900, [("A", [("d", 100)])], 1000⟩

/-- An empty portfolio with priced data, used to instantiate invariants. -/
def p_none6 : Portfolio := ⟨[], 100, [("A", [("d", 10)])], 100⟩

/-- Another empty portfolio with priced data. -/
def p_none7 : Portfolio := ⟨[], 50, [("A", [("d", 10)])], 50⟩

/-- Two holdings, no cash: `A` worth 100 at price 10, `B` empty at price 1.
With weight `3/5` the target allocation is `6/5` of the portfolio. -/
def p_over : Portfolio :=
  ⟨[("A", ⟨10, 50⟩), ("B", ⟨0, 0⟩)], 0, [("A", [("d", 10)]), ("B", [("d", 1)])], 0⟩

/-- The state `balance_portfolio p_over (3/5) "d"` actually produces: four
shares of `A` sold (price 10, average cost 5), the buy of `B` declined. -/
def p_over_after : Portfolio :=
  ⟨[("A", ⟨6, 30⟩), ("B", ⟨0, 0⟩)], 40, [("A", [("d", 10)]), ("B", [("d", 1)])], 0⟩

/-- A portfolio holding `X` whose table has no row for the queried date. -/
def p_gap : Portfolio := ⟨[("X", ⟨1, 10⟩)], 0, [("X", [("2001-01-02", 25)])], 0⟩

/-- An empty portfolio (no holdings) with priced data. -/
def p_none8 : Portfolio := ⟨[], 5, [("A", [("d", 10)])], 5⟩

/-- Two held symbols priced 5 and 9 on date `d`. -/
def p_two : Portfolio :=
  ⟨[("A", ⟨1, 5⟩), ("B", ⟨2, 18⟩)], 100, [("A", [("d", 5)]), ("B", [("d", 9)])], 100⟩

/-- An empty portfolio (no holdings). -/
def p_none9 : Portfolio := ⟨[], 10, [("A", [("d", 10)])], 10⟩

/-- A single-symbol portfolio for the even-balance delegation. -/
def p_one9 : Portfolio := ⟨[("A", ⟨0, 0⟩)], 20, [("A", [("d", 10)])], 20⟩

/-- `A` is priced in the data but absent from the holdings dict; `B` is held. -/
def p_abs : Portfolio :=
  ⟨[("B", ⟨0, 0⟩)], 100, [("A", [("d", 10)]), ("B", [("d", 7)])], 100⟩

lemma dictGet_updateH (l : List (String × Holding)) (k : String)
    (f : Holding → Holding) (s : String) :
    dictGet (updateH l k f) s =
      if s = k then (dictGet l k).map f else dictGet l s := by
  induction l with
  | nil => simp [dictGet, updateH]
  | cons kv rest ih =>
    obtain ⟨k1, v1⟩ := kv
    simp only [updateH, List.map_cons] at ih ⊢
    by_cases hk : k1 = k
    · subst hk
      by_cases hs : s = k1
      · subst hs
        simp [dictGet]
      · have hs' : ¬ k1 = s := fun h => hs h.symm
        simp [dictGet, hs, hs', ih]
    · by_cases hs : k1 = s
      · subst hs
        have hsk : ¬ k1 = k := hk
        simp [dictGet, hk, hsk]
      · simp [dictGet, hk, hs, ih]

lemma dictGet_mem {β : Type} : ∀ {l : List (String × β)} {s : String} {v : β},
    dictGet l s = some v → (s, v) ∈ l := by
  intro l
  induction l with
  | nil => intro s v h; simp [dictGet] at h
  | cons kv rest ih =>
    intro s v h
    obtain ⟨k1, v1⟩ := kv
    by_cases hk : k1 = s
    · subst hk
      simp only [dictGet, if_pos, Option.some.injEq] at h
      rw [show v = v1 from h.symm]
      exact List.mem_cons_self _ _
    · simp only [dictGet, if_neg hk] at h
      exact List.mem_cons_of_mem _ (ih h)

lemma dictGet_append_of_none {β : Type} {l : List (String × β)} {s : String}
    (h : dictGet l s = none) (k : String) (v : β) :
    dictGet (l ++ [(k, v)]) s = if k = s then some v else none := by
  induction l with
  | nil => simp [dictGet]
  | cons kv rest ih =>
    by_cases hk : kv.1 = s
    · simp [dictGet, hk] at h
    · simp only [dictGet, hk, if_neg, not_false_iff] at h
      simpa [dictGet, hk] using ih h

lemma dictGet_append_of_some {β : Type} {l : List (String × β)} {s : String} {w : β}
    (h : dictGet l s = some w) (k : String) (v : β) :
    dictGet (l ++ [(k, v)]) s = some w := by
  induction l with
  | nil => simp [dictGet] at h
  | cons kv rest ih =>
    by_cases hk : kv.1 = s
    · simpa [dictGet, hk] using h
    · simp only [dictGet, hk, if_neg, not_false_iff] at h
      simpa [dictGet, hk] using ih h

lemma dictGet_removeKey (l : List (String × Holding)) (k s : String) :
    dictGet (removeKey l k) s = if s = k then none else dictGet l s := by
  induction l with
  | nil => simp [dictGet, removeKey]
  | cons kv rest ih =>
    obtain ⟨k1, v1⟩ := kv
    by_cases hk : k1 = k
    · subst hk
      by_cases hs : s = k1
      · subst hs
        simp [removeKey, ih]
      · have hs' : ¬ k1 = s := fun h => hs h.symm
        simp [removeKey, dictGet, ih, hs, hs']
    · by_cases hs : k1 = s
      · subst hs
        have hsk : ¬ k1 = k := hk
        simp [removeKey, dictGet, hk, hsk]
      · simp [removeKey, dictGet, hk, hs, ih]

lemma pyInt_intCast (n : ℤ) : pyInt (n : ℚ) = n := by
  unfold pyInt
  split
  · exact Int.floor_intCast n
  · exact Int.ceil_intCast n

lemma pyInt_mono {a b : ℚ} (h : a ≤ b) : pyInt a ≤ pyInt b := by
  unfold pyInt
  split
  · rename_i ha
    rw [if_pos (le_trans ha h)]
    exact Int.floor_mono h
  · rename_i ha
    split
    · rename_i hb
      calc ⌈a⌉ ≤ 0 := Int.ceil_le.mpr (by exact_mod_cast le_of_not_le ha)
      _ ≤ ⌊b⌋ := Int.le_floor.mpr (by exact_mod_cast hb)
    · exact Int.ceil_mono h

lemma pyInt_nonneg {q : ℚ} (h : 0 ≤ q) : 0 ≤ pyInt q := by
  unfold pyInt
  rw [if_pos h]
  exact Int.le_floor.mpr (by exact_mod_cast h)

lemma buy_ok_cases {p : Portfolio} {sym d : String} {p' : Portfolio}
    (h : buy p sym d = Except.ok p') :
    p' = p ∨
    ∃ pr, get_price p sym d = some pr ∧ p.cash ≥ pr ∧
      (∃ h0, dictGet p.portfolio sym = some h0) ∧
      p' = { p with
        portfolio := updateH p.portfolio sym
          (fun hh => ⟨hh.shares + 1, hh.cost + pr⟩),
        cash := p.cash - pr } := by
  unfold buy at h
  split at h
  · exact absurd h (by simp)
  · rename_i pr hpr
    split at h
    · rename_i hcash
      split at h
      · exact absurd h (by simp)
      · rename_i h0 hd
        refine Or.inr ⟨pr, hpr, hcash, ⟨h0, hd⟩, ?_⟩
        exact ((Except.ok.injEq _ _).mp h).symm
    · exact Or.inl ((Except.ok.injEq _ _).mp h).symm

lemma sell_ok_cases {p : Portfolio} {sym d : String} {p' : Portfolio}
    (h : sell p sym d = Except.ok p') :
    p' = p ∨
    ∃ h0 pr, dictGet p.portfolio sym = some h0 ∧ get_price p sym d = some pr ∧
      h0.shares ≥ 1 ∧
      p' = { p with
        portfolio := updateH p.portfolio sym
          (fun hh => ⟨hh.shares - 1, hh.cost - h0.cost / (h0.shares : ℚ)⟩),
        cash := p.cash + pr } := by
  unfold sell at h
  split at h
  · exact Or.inl ((Except.ok.injEq _ _).mp h).symm
  · rename_i h0 hd
    split at h
    · rename_i hsh
      split at h
      · exact absurd h (by simp)
      · rename_i pr hpr
        refine Or.inr ⟨h0, pr, hd, hpr, hsh, ?_⟩
        exact ((Except.ok.injEq _ _).mp h).symm
    · exact Or.inl ((Except.ok.injEq _ _).mp h).symm

lemma bulk_buy_ok_cases {p : Portfolio} {sym : String} {q : ℤ} {d : String} {p' : Portfolio}
    (h : bulk_buy p sym q d = Except.ok p') :
    p' = p ∨
    ∃ pr, get_price p sym d = some pr ∧ p.cash ≥ pr * (q : ℚ) ∧
      (∃ h0, dictGet p.portfolio sym = some h0) ∧
      p' = { p with
        portfolio := updateH p.portfolio sym
          (fun hh => ⟨hh.shares + q, hh.cost + pr * (q : ℚ)⟩),
        cash := p.cash - pr * (q : ℚ) } := by
  unfold bulk_buy at h
  split at h
  · exact absurd h (by simp)
  · rename_i pr hpr
    split at h
    · rename_i hcash
      split at h
      · exact absurd h (by simp)
      · rename_i h0 hd
        refine Or.inr ⟨pr, hpr, hcash, ⟨h0, hd⟩, ?_⟩
        exact ((Except.ok.injEq _ _).mp h).symm
    · exact Or.inl ((Except.ok.injEq _ _).mp h).symm

lemma bulk_sell_ok_cases {p : Portfolio} {sym : String} {q : ℤ} {d : String} {p' : Portfolio}
    (h : bulk_sell p sym q d = Except.ok p') :
    p' = p ∨
    ∃ h0 pr, dictGet p.portfolio sym = some h0 ∧ get_price p sym d = some pr ∧
      h0.shares ≥ q ∧ h0.shares ≠ 0 ∧
      p' = { p with
        portfolio := updateH p.portfolio sym
          (fun hh => ⟨hh.shares - q, hh.cost - h0.cost / (h0.shares : ℚ) * (q : ℚ)⟩),
        cash := p.cash + pr * (q : ℚ) } := by
  unfold bulk_sell at h
  split at h
  · exact Or.inl ((Except.ok.injEq _ _).mp h).symm
  · rename_i h0 hd
    split at h
    · rename_i hsh
      split at h
      · exact absurd h (by simp)
      · rename_i hz
        split at h
        · exact absurd h (by simp)
        · rename_i pr hpr
          refine Or.inr ⟨h0, pr, hd, hpr, hsh, hz, ?_⟩
          exact ((Except.ok.injEq _ _).mp h).symm
    · exact Or.inl ((Except.ok.injEq _ _).mp h).symm

lemma sharesNonneg_of_update {p : Portfolio} {sym : String} {f : Holding → Holding}
    {c t : ℚ} (hp : SharesNonneg p)
    (hf : ∀ h0, dictGet p.portfolio sym = some h0 → 0 ≤ (f h0).shares) :
    SharesNonneg { p with portfolio := updateH p.portfolio sym f,
                          cash := c, deposit_track := t } := by
  intro s hh hget
  dsimp only at hget
  rw [dictGet_updateH] at hget
  by_cases hs : s = sym
  · rw [if_pos hs] at hget
    cases hd : dictGet p.portfolio sym with
    | none => rw [hd] at hget; simp at hget
    | some h0 =>
      rw [hd] at hget
      simp only [Option.map] at hget
      rw [show hh = f h0 from ((Option.some.injEq _ _).mp hget).symm]
      exact hf h0 hd
  · rw [if_neg hs] at hget
    exact hp s hh hget

lemma costZero_of_update {p : Portfolio} {sym : String} {f : Holding → Holding}
    {c t : ℚ} (hp : CostZero p)
    (hf : ∀ h0, dictGet p.portfolio sym = some h0 → (f h0).shares = 0 → (f h0).cost = 0) :
    CostZero { p with portfolio := updateH p.portfolio sym f,
                      cash := c, deposit_track := t } := by
  intro s hh hget hz
  dsimp only at hget
  rw [dictGet_updateH] at hget
  by_cases hs : s = sym
  · rw [if_pos hs] at hget
    cases hd : dictGet p.portfolio sym with
    | none => rw [hd] at hget; simp at hget
    | some h0 =>
      rw [hd] at hget
      simp only [Option.map] at hget
      rw [show hh = f h0 from ((Option.some.injEq _ _).mp hget).symm] at hz ⊢
      exact hf h0 hd hz
  · rw [if_neg hs] at hget
    exact hp s hh hget hz

lemma buy_nonneg {p p' : Portfolio} {sym d : String} (hp : SharesNonneg p)
    (h : buy p sym d = Except.ok p') : SharesNonneg p' := by
  rcases buy_ok_cases h with rfl | ⟨pr, _, _, _, rfl⟩
  · exact hp
  · exact sharesNonneg_of_update hp (fun h0 hd => by
      have := hp sym h0 hd
      simp only []
      omega)

lemma buy_costzero {p p' : Portfolio} {sym d : String} (hp : SharesNonneg p)
    (hc : CostZero p) (h : buy p sym d = Except.ok p') : CostZero p' := by
  rcases buy_ok_cases h with rfl | ⟨pr, _, _, _, rfl⟩
  · exact hc
  · exact costZero_of_update hc (fun h0 hd hz => by
      have := hp sym h0 hd
      simp only [] at hz
      omega)

lemma sell_nonneg {p p' : Portfolio} {sym d : String} (hp : SharesNonneg p)
    (h : sell p sym d = Except.ok p') : SharesNonneg p' := by
  rcases sell_ok_cases h with rfl | ⟨h0, pr, hd, hpr, hsh, rfl⟩
  · exact hp
  · exact sharesNonneg_of_update hp (fun h1 hd1 => by
      rw [hd] at hd1
      rw [show h1 = h0 from ((Option.some.injEq _ _).mp hd1).symm]
      simp only []
      omega)

lemma sell_costzero {p p' : Portfolio} {sym d : String} (hc : CostZero p)
    (h : sell p sym d = Except.ok p') : CostZero p' := by
  rcases sell_ok_cases h with rfl | ⟨h0, pr, hd, hpr, hsh, rfl⟩
  · exact hc
  · exact costZero_of_update hc (fun h1 hd1 hz => by
      rw [hd] at hd1
      rw [show h1 = h0 from ((Option.some.injEq _ _).mp hd1).symm] at hz ⊢
      simp only [] at hz ⊢
      have hone : h0.shares = 1 := by omega
      rw [hone]
      norm_num)

lemma bulk_buy_nonneg {p p' : Portfolio} {sym : String} {q : ℤ} {d : String}
    (hp : SharesNonneg p)
    (hq : ∀ h0, dictGet p.portfolio sym = some h0 → -h0.shares ≤ q)
    (h : bulk_buy p sym q d = Except.ok p') : SharesNonneg p' := by
  rcases bulk_buy_ok_cases h with rfl | ⟨pr, _, _, _, rfl⟩
  · exact hp
  · exact sharesNonneg_of_update hp (fun h0 hd => by
      have := hq h0 hd
      simp only []
      omega)

lemma bulk_buy_costzero {p p' : Portfolio} {sym : String} {q : ℤ} {d : String}
    (hp : SharesNonneg p) (hc : CostZero p)
    (hq : ∀ h0, dictGet p.portfolio sym = some h0 → 0 ≤ q ∨ 1 ≤ h0.shares + q)
    (h : bulk_buy p sym q d = Except.ok p') : CostZero p' := by
  rcases bulk_buy_ok_cases h with rfl | ⟨pr, _, _, _, rfl⟩
  · exact hc
  · exact costZero_of_update hc (fun h0 hd hz => by
      have hq0 := hq h0 hd
      have hs0 := hp sym h0 hd
      simp only [] at hz ⊢
      have : h0.shares = 0 ∧ q = 0 := by omega
      rw [this.2, hc sym h0 hd this.1]
      norm_num)

lemma bulk_sell_nonneg {p p' : Portfolio} {sym : String} {q : ℤ} {d : String}
    (hp : SharesNonneg p)
    (h : bulk_sell p sym q d = Except.ok p') : SharesNonneg p' := by
  rcases bulk_sell_ok_cases h with rfl | ⟨h0, pr, hd, hpr, hsh, hz, rfl⟩
  · exact hp
  · exact sharesNonneg_of_update hp (fun h1 hd1 => by
      rw [hd] at hd1
      rw [show h1 = h0 from ((Option.some.injEq _ _).mp hd1).symm]
      simp only []
      omega)

lemma bulk_sell_costzero {p p' : Portfolio} {sym : String} {q : ℤ} {d : String}
    (hc : CostZero p)
    (h : bulk_sell p sym q d = Except.ok p') : CostZero p' := by
  rcases bulk_sell_ok_cases h with rfl | ⟨h0, pr, hd, hpr, hsh, hz, rfl⟩
  · exact hc
  · exact costZero_of_update hc (fun h1 hd1 hsz => by
      rw [hd] at hd1
      rw [show h1 = h0 from ((Option.some.injEq _ _).mp hd1).symm] at hsz ⊢
      simp only [] at hsz ⊢
      have hq0 : q = h0.shares := by omega
      have hcast : ((h0.shares : ℤ) : ℚ) ≠ 0 := Int.cast_ne_zero.mpr hz
      rw [hq0, div_mul_cancel₀ _ hcast]
      ring)

lemma bulk_buy_data {p p' : Portfolio} {sym : String} {q : ℤ} {d : String}
    (h : bulk_buy p sym q d = Except.ok p') : p'.data = p.data := by
  rcases bulk_buy_ok_cases h with rfl | ⟨pr, _, _, _, rfl⟩ <;> rfl

lemma bulk_sell_data {p p' : Portfolio} {sym : String} {q : ℤ} {d : String}
    (h : bulk_sell p sym q d = Except.ok p') : p'.data = p.data := by
  rcases bulk_sell_ok_cases h with rfl | ⟨h0, pr, _, _, _, _, rfl⟩ <;> rfl

lemma get_price_eq_of_data {p p' : Portfolio} (h : p'.data = p.data)
    (sym d : String) : get_price p' sym d = get_price p sym d := by
  unfold get_price
  rw [h]

lemma max_buy_nonneg {p p' : Portfolio} {sym d : String} (hp : SharesNonneg p)
    (hc : 0 ≤ p.cash) (hpos : PosData p.data)
    (h : max_buy p sym d = Except.ok p') : SharesNonneg p' := by
  unfold max_buy at h
  split at h
  · exact absurd h (by simp)
  · rename_i pr hpr
    split at h
    · exact absurd h (by simp)
    · rename_i hz
      have hprpos : 0 < pr := hpos sym d pr hpr
      have hq : 0 ≤ pyInt (p.cash / pr) :=
        pyInt_nonneg (div_nonneg hc (le_of_lt hprpos))
      exact bulk_buy_nonneg hp
        (fun h0 hd => by have h1 := hp sym h0 hd; omega) h

lemma max_buy_costzero {p p' : Portfolio} {sym d : String} (hp : SharesNonneg p)
    (hcz : CostZero p) (hc : 0 ≤ p.cash) (hpos : PosData p.data)
    (h : max_buy p sym d = Except.ok p') : CostZero p' := by
  unfold max_buy at h
  split at h
  · exact absurd h (by simp)
  · rename_i pr hpr
    split at h
    · exact absurd h (by simp)
    · rename_i hz
      have hprpos : 0 < pr := hpos sym d pr hpr
      have hq : 0 ≤ pyInt (p.cash / pr) :=
        pyInt_nonneg (div_nonneg hc (le_of_lt hprpos))
      exact bulk_buy_costzero hp hcz (fun h0 hd => Or.inl hq) h

lemma value_buy_nonneg {p p' : Portfolio} {sym : String} {amount : ℚ} {d : String}
    (hp : SharesNonneg p) (ha : 0 ≤ amount) (hpos : PosData p.data)
    (h : value_buy p sym amount d = Except.ok p') : SharesNonneg p' := by
  unfold value_buy at h
  split at h
  · rw [show p = p' from (Except.ok.injEq _ _).mp h] at hp
    exact hp
  · split at h
    · exact absurd h (by simp)
    · rename_i pr hpr
      split at h
      · exact absurd h (by simp)
      · rename_i hz
        have hprpos : 0 < pr := hpos sym d pr hpr
        have hq : 0 ≤ pyInt (amount / pr) :=
          pyInt_nonneg (div_nonneg ha (le_of_lt hprpos))
        exact bulk_buy_nonneg hp
          (fun h0 hd => by have h1 := hp sym h0 hd; omega) h

lemma value_buy_costzero {p p' : Portfolio} {sym : String} {amount : ℚ} {d : String}
    (hp : SharesNonneg p) (hcz : CostZero p) (ha : 0 ≤ amount) (hpos : PosData p.data)
    (h : value_buy p sym amount d = Except.ok p') : CostZero p' := by
  unfold value_buy at h
  split at h
  · rw [show p = p' from (Except.ok.injEq _ _).mp h] at hcz
    exact hcz
  · split at h
    · exact absurd h (by simp)
    · rename_i pr hpr
      split at h
      · exact absurd h (by simp)
      · rename_i hz
        have hprpos : 0 < pr := hpos sym d pr hpr
        have hq : 0 ≤ pyInt (amount / pr) :=
          pyInt_nonneg (div_nonneg ha (le_of_lt hprpos))
        exact bulk_buy_costzero hp hcz (fun h0 hd => Or.inl hq) h

lemma max_sell_nonneg {p p' : Portfolio} {sym d : String} (hp : SharesNonneg p)
    (h : max_sell p sym d = Except.ok p') : SharesNonneg p' := by
  unfold max_sell at h
  split at h
  · exact absurd h (by simp)
  · exact bulk_sell_nonneg hp h

lemma max_sell_costzero {p p' : Portfolio} {sym d : String} (hc : CostZero p)
    (h : max_sell p sym d = Except.ok p') : CostZero p' := by
  unfold max_sell at h
  split at h
  · exact absurd h (by simp)
  · exact bulk_sell_costzero hc h

lemma fme_scan_le {data : PriceData} {date : String} :
    ∀ {l : List (String × Holding)} {acc m : ℚ},
      fme_scan data date l acc = Except.ok m → acc ≤ m := by
  intro l
  induction l with
  | nil =>
    intro acc m h
    simp only [fme_scan] at h
    rw [(Except.ok.injEq _ _).mp h]
  | cons kv rest ih =>
    intro acc m h
    obtain ⟨sym, hld⟩ := kv
    simp only [fme_scan] at h
    split at h
    · exact absurd h (by simp)
    · rename_i pr hpr
      have := ih h
      split at this
      · exact le_trans (le_of_lt (by assumption)) this
      · exact this

lemma fme_scan_bound {data : PriceData} {date : String} :
    ∀ {l : List (String × Holding)} {acc m : ℚ},
      fme_scan data date l acc = Except.ok m →
      ∀ sym h, (sym, h) ∈ l → ∀ pr, get_price_data data sym date = some pr → pr ≤ m := by
  intro l
  induction l with
  | nil =>
    intro acc m h sym hld hmem
    simp at hmem
  | cons kv rest ih =>
    intro acc m h sym hld hmem pr hpr
    obtain ⟨sym1, hld1⟩ := kv
    simp only [fme_scan] at h
    split at h
    · exact absurd h (by simp)
    · rename_i pr1 hpr1
      rcases List.mem_cons.mp hmem with heq | hmem'
      · have hsym : sym1 = sym := congrArg Prod.fst heq.symm
        rw [hsym] at hpr1
        rw [hpr1] at hpr
        rw [(Option.some.injEq _ _).mp hpr.symm]
        have hle := fme_scan_le h
        split at hle
        · exact le_trans (le_refl pr1) hle
        · rename_i hnot
          exact le_trans (le_of_not_lt hnot) hle
      · exact ih h sym hld hmem' pr hpr

lemma fme_scan_attained {data : PriceData} {date : String} :
    ∀ {l : List (String × Holding)} {acc m : ℚ},
      fme_scan data date l acc = Except.ok m →
      m = acc ∨ ∃ sym h, (sym, h) ∈ l ∧ get_price_data data sym date = some m := by
  intro l
  induction l with
  | nil =>
    intro acc m h
    simp only [fme_scan] at h
    exact Or.inl ((Except.ok.injEq _ _).mp h).symm
  | cons kv rest ih =>
    intro acc m h
    obtain ⟨sym1, hld1⟩ := kv
    simp only [fme_scan] at h
    split at h
    · exact absurd h (by simp)
    · rename_i pr1 hpr1
      rcases ih h with hacc | ⟨sym, hld, hmem, hp⟩
      · split at hacc
        · exact Or.inr ⟨sym1, hld1, List.mem_cons_self _ _, hacc ▸ hpr1⟩
        · exact Or.inl hacc
      · exact Or.inr ⟨sym, hld, List.mem_cons_of_mem _ hmem, hp⟩

lemma phase1_ok {date : String} {wc : ℚ} :
    ∀ {funds : List String} {p : Portfolio} {need : List String} {evs : List Event}
      {p' : Portfolio} {need' : List String} {evs' : List Event},
      phase1 date wc funds p need evs = (Except.ok (p', need'), evs') →
      SharesNonneg p →
      SharesNonneg p' ∧ p'.data = p.data ∧
        (∀ f, f ∈ need' → f ∈ need ∨ f ∈ funds) := by
  intro funds
  induction funds with
  | nil =>
    intro p need evs p' need' evs' h hp
    simp only [phase1, Prod.mk.injEq, Except.ok.injEq] at h
    obtain ⟨⟨hp', hn'⟩, _⟩ := h
    rw [← hp', ← hn']
    exact ⟨hp, rfl, fun f hf => Or.inl hf⟩
  | cons fund rest ih =>
    intro p need evs p' need' evs' h hp
    simp only [phase1] at h
    split at h
    · simp at h
    · rename_i shares hsc
      split at h
      · simp at h
      · rename_i pr hpr
        split at h
        · rcases ih h hp with ⟨h1, h2, h3⟩
          refine ⟨h1, h2, fun f hf => ?_⟩
          rcases h3 f hf with hmem | hmem
          · rcases List.mem_append.mp hmem with hmem' | hmem'
            · exact Or.inl hmem'
            · exact Or.inr (List.mem_cons.mpr (Or.inl (List.mem_singleton.mp hmem')))
          · exact Or.inr (List.mem_cons_of_mem _ hmem)
        · split at h
          · simp at h
          · split at h
            · simp at h
            · rename_i p1 hbs
              rcases ih h (bulk_sell_nonneg hp hbs) with ⟨h1, h2, h3⟩
              refine ⟨h1, h2.trans (bulk_sell_data hbs), fun f hf => ?_⟩
              rcases h3 f hf with hmem | hmem
              · exact Or.inl hmem
              · exact Or.inr (List.mem_cons_of_mem _ hmem)

lemma phase1_costzero {date : String} {wc : ℚ} :
    ∀ {funds : List String} {p : Portfolio} {need : List String} {evs : List Event}
      {p' : Portfolio} {need' : List String} {evs' : List Event},
      phase1 date wc funds p need evs = (Except.ok (p', need'), evs') →
      CostZero p → CostZero p' := by
  intro funds
  induction funds with
  | nil =>
    intro p need evs p' need' evs' h hc
    simp only [phase1, Prod.mk.injEq, Except.ok.injEq] at h
    rw [← h.1.1]
    exact hc
  | cons fund rest ih =>
    intro p need evs p' need' evs' h hc
    simp only [phase1] at h
    split at h
    · simp at h
    · split at h
      · simp at h
      · split at h
        · exact ih h hc
        · split at h
          · simp at h
          · split at h
            · simp at h
            · rename_i p1 hbs
              exact ih h (bulk_sell_costzero hc hbs)

lemma pyInt_ratio_ge {wc pr : ℚ} {s : ℤ} (hpr : 0 < pr) (hwc : 0 ≤ wc) :
    -s ≤ pyInt ((wc - pr * (s : ℚ)) / pr) := by
  have key : ((-s : ℤ) : ℚ) ≤ (wc - pr * (s : ℚ)) / pr := by
    rw [sub_div, mul_comm pr ((s : ℤ) : ℚ), mul_div_assoc, div_self (ne_of_gt hpr)]
    push_cast
    have h0 : 0 ≤ wc / pr := div_nonneg hwc (le_of_lt hpr)
    linarith
  have hmono := pyInt_mono key
  rwa [pyInt_intCast] at hmono

lemma pyInt_ratio_ge_one_sub {wc pr : ℚ} {s : ℤ} (hpr : 0 < pr) (hwc : pr ≤ wc) :
    1 - s ≤ pyInt ((wc - pr * (s : ℚ)) / pr) := by
  have key : (((1 - s) : ℤ) : ℚ) ≤ (wc - pr * (s : ℚ)) / pr := by
    rw [sub_div, mul_comm pr ((s : ℤ) : ℚ), mul_div_assoc, div_self (ne_of_gt hpr)]
    push_cast
    have h1 : 1 ≤ wc / pr := (one_le_div hpr).mpr hwc
    linarith
  have hmono := pyInt_mono key
  rwa [pyInt_intCast] at hmono

lemma get_share_count_ok {p : Portfolio} {sym : String} {shares : ℤ}
    (h : get_share_count p sym = Except.ok shares) :
    ∃ h0, dictGet p.portfolio sym = some h0 ∧ h0.shares = shares := by
  unfold get_share_count at h
  split at h
  · exact absurd h (by simp)
  · rename_i h0 hd0
    exact ⟨h0, hd0, (Except.ok.injEq _ _).mp h⟩

lemma phase2_nonneg {date : String} {wc : ℚ} (hwc : 0 ≤ wc) :
    ∀ {need : List String} {p : Portfolio} {evs : List Event}
      {p' : Portfolio} {evs' : List Event},
      phase2 date wc need p evs = (Except.ok p', evs') →
      SharesNonneg p → PosData p.data →
      SharesNonneg p' ∧ p'.data = p.data := by
  intro need
  induction need with
  | nil =>
    intro p evs p' evs' h hp hpos
    simp only [phase2, Prod.mk.injEq, Except.ok.injEq] at h
    rw [← h.1]
    exact ⟨hp, rfl⟩
  | cons fund rest ih =>
    intro p evs p' evs' h hp hpos
    simp only [phase2] at h
    split at h
    · simp at h
    · rename_i shares hsc
      split at h
      · simp at h
      · rename_i pr hpr
        split at h
        · simp at h
        · rename_i hprz
          split at h
          · simp at h
          · rename_i p1 hbb
            obtain ⟨h0, hd0, hs0⟩ := get_share_count_ok hsc
            have hprpos : 0 < pr := hpos fund date pr hpr
            have hq : ∀ h1, dictGet p.portfolio fund = some h1 →
                -h1.shares ≤ pyInt ((wc - pr * (shares : ℚ)) / pr) := by
              intro h1 hd1
              rw [hd0] at hd1
              rw [show h1 = h0 from ((Option.some.injEq _ _).mp hd1).symm, hs0]
              exact pyInt_ratio_ge hprpos hwc
            have hd1 : p1.data = p.data := bulk_buy_data hbb
            have hpos1 : PosData p1.data := by rw [hd1]; exact hpos
            rcases ih h (bulk_buy_nonneg hp hq hbb) hpos1 with ⟨hsh, hdata⟩
            exact ⟨hsh, hdata.trans hd1⟩

lemma phase2_inv {date : String} {wc : ℚ} :
    ∀ {need : List String} {p : Portfolio} {evs : List Event}
      {p' : Portfolio} {evs' : List Event},
      phase2 date wc need p evs = (Except.ok p', evs') →
      SharesNonneg p → CostZero p → PosData p.data →
      (∀ f, f ∈ need → ∀ pr, get_price_data p.data f date = some pr → pr ≤ wc) →
      SharesNonneg p' ∧ CostZero p' ∧ p'.data = p.data := by
  intro need
  induction need with
  | nil =>
    intro p evs p' evs' h hp hc hpos hneed
    simp only [phase2, Prod.mk.injEq, Except.ok.injEq] at h
    rw [← h.1]
    exact ⟨hp, hc, rfl⟩
  | cons fund rest ih =>
    intro p evs p' evs' h hp hc hpos hneed
    simp only [phase2] at h
    split at h
    · simp at h
    · rename_i shares hsc
      split at h
      · simp at h
      · rename_i pr hpr
        split at h
        · simp at h
        · rename_i hprz
          split at h
          · simp at h
          · rename_i p1 hbb
            obtain ⟨h0, hd0, hs0⟩ := get_share_count_ok hsc
            have hprpos : 0 < pr := hpos fund date pr hpr
            have hprwc : pr ≤ wc :=
              hneed fund (List.mem_cons_self _ _) pr hpr
            have hge : 1 - shares ≤ pyInt ((wc - pr * (shares : ℚ)) / pr) :=
              pyInt_ratio_ge_one_sub hprpos hprwc
            have hq : ∀ h1, dictGet p.portfolio fund = some h1 →
                -h1.shares ≤ pyInt ((wc - pr * (shares : ℚ)) / pr) := by
              intro h1 hd1
              rw [hd0] at hd1
              rw [show h1 = h0 from ((Option.some.injEq _ _).mp hd1).symm, hs0]
              omega
            have hqz : ∀ h1, dictGet p.portfolio fund = some h1 →
                0 ≤ pyInt ((wc - pr * (shares : ℚ)) / pr) ∨
                1 ≤ h1.shares + pyInt ((wc - pr * (shares : ℚ)) / pr) := by
              intro h1 hd1
              rw [hd0] at hd1
              rw [show h1 = h0 from ((Option.some.injEq _ _).mp hd1).symm, hs0]
              omega
            have hd1 : p1.data = p.data := bulk_buy_data hbb
            have hpos1 : PosData p1.data := by rw [hd1]; exact hpos
            have hneed1 : ∀ f, f ∈ rest →
                ∀ pr1, get_price_data p1.data f date = some pr1 → pr1 ≤ wc := by
              intro f hf pr1 hp1
              rw [hd1] at hp1
              exact hneed f (List.mem_cons_of_mem _ hf) pr1 hp1
            rcases ih h (bulk_buy_nonneg hp hq hbb)
                (bulk_buy_costzero hp hc hqz hbb) hpos1 hneed1 with ⟨hsh, hcz, hdata⟩
            exact ⟨hsh, hcz, hdata.trans hd1⟩

lemma balance_nonneg {p : Portfolio} {w : ℚ} {d : String} {p' : Portfolio}
    (hp : SharesNonneg p) (hpos : PosData p.data)
    (h : (balance_portfolio p w d).1 = Except.ok p') : SharesNonneg p' := by
  unfold balance_portfolio at h
  split at h
  · rw [← (Except.ok.injEq _ _).mp h]
    exact hp
  · split at h
    · simp at h
    · rename_i hv hhv
      split at h
      · simp at h
      · rename_i m hfme
        split at h
        · rw [← (Except.ok.injEq _ _).mp h]
          exact hp
        · rename_i hlt
          split at h
          · simp at h
          · rename_i p1 need evs hph1
            have hm0 : 0 ≤ m := fme_scan_le hfme
            have hwc : 0 ≤ (p.cash + hv) * w :=
              le_trans hm0 (le_of_not_lt hlt)
            rcases phase1_ok hph1 hp with ⟨hp1, hdata1, _⟩
            have hpos1 : PosData p1.data := by rw [hdata1]; exact hpos
            have h2 : phase2 d ((p.cash + hv) * w) need p1 evs =
                (Except.ok p', (phase2 d ((p.cash + hv) * w) need p1 evs).2) :=
              Prod.ext h rfl
            exact (phase2_nonneg hwc h2 hp1 hpos1).1

lemma balance_inv {p : Portfolio} {w : ℚ} {d : String} {p' : Portfolio}
    (hp : SharesNonneg p) (hc : CostZero p) (hpos : PosData p.data)
    (h : (balance_portfolio p w d).1 = Except.ok p') :
    SharesNonneg p' ∧ CostZero p' := by
  unfold balance_portfolio at h
  split at h
  · rw [← (Except.ok.injEq _ _).mp h]
    exact ⟨hp, hc⟩
  · split at h
    · simp at h
    · rename_i hv hhv
      split at h
      · simp at h
      · rename_i m hfme
        split at h
        · rw [← (Except.ok.injEq _ _).mp h]
          exact ⟨hp, hc⟩
        · rename_i hlt
          split at h
          · simp at h
          · rename_i p1 need evs hph1
            have hm0 : 0 ≤ m := fme_scan_le hfme
            have hmwc : m ≤ (p.cash + hv) * w := le_of_not_lt hlt
            rcases phase1_ok hph1 hp with ⟨hp1, hdata1, hsub⟩
            have hc1 : CostZero p1 := phase1_costzero hph1 hc
            have hpos1 : PosData p1.data := by rw [hdata1]; exact hpos
            have hneed1 : ∀ f, f ∈ need →
                ∀ pr, get_price_data p1.data f d = some pr →
                  pr ≤ (p.cash + hv) * w := by
              intro f hf pr hpr
              rw [hdata1] at hpr
              rcases hsub f hf with hmem | hmem
              · simp at hmem
              · rcases List.mem_map.mp hmem with ⟨⟨f1, hld⟩, hent, hfst⟩
                have : f1 = f := hfst
                rw [this] at hent
                exact le_trans (fme_scan_bound hfme f hld hent pr hpr) hmwc
            have h2 : phase2 d ((p.cash + hv) * w) need p1 evs =
                (Except.ok p', (phase2 d ((p.cash + hv) * w) need p1 evs).2) :=
              Prod.ext h rfl
            rcases phase2_inv h2 hp1 hc1 hpos1 hneed1 with ⟨h1, h2', _⟩
            exact ⟨h1, h2'⟩

lemma phase1_trace {date : String} {wc : ℚ} :
    ∀ {funds : List String} {p : Portfolio} {need : List String} {evs : List Event},
      ∃ s, (phase1 date wc funds p need evs).2 = evs ++ s ∧
        ∀ e, e ∈ s → ∃ f q, e = Event.sellEv f q := by
  intro funds
  induction funds with
  | nil =>
    intro p need evs
    exact ⟨[], by simp [phase1], by simp⟩
  | cons fund rest ih =>
    intro p need evs
    simp only [phase1]
    split
    · exact ⟨[], by simp, by simp⟩
    · rename_i shares hsc
      split
      · exact ⟨[], by simp, by simp⟩
      · rename_i pr hpr
        split
        · exact ih
        · split
          · exact ⟨[], by simp, by simp⟩
          · split
            · exact ⟨[Event.sellEv fund (pyInt ((pr * (shares : ℚ) - wc) / pr))],
                by simp, by simp⟩
            · rename_i p1 hbs
              rcases @ih p1 need
                  (evs ++ [Event.sellEv fund (pyInt ((pr * (shares : ℚ) - wc) / pr))])
                with ⟨s, hs, hall⟩
              refine ⟨Event.sellEv fund (pyInt ((pr * (shares : ℚ) - wc) / pr)) :: s,
                ?_, ?_⟩
              · rw [hs, List.append_assoc]
                rfl
              · intro e he
                rcases List.mem_cons.mp he with rfl | he'
                · exact ⟨fund, pyInt ((pr * (shares : ℚ) - wc) / pr), rfl⟩
                · exact hall e he'

lemma phase2_trace {date : String} {wc : ℚ} :
    ∀ {need : List String} {p : Portfolio} {evs : List Event},
      ∃ b, (phase2 date wc need p evs).2 = evs ++ b ∧
        ∀ e, e ∈ b → ∃ f q, e = Event.buyEv f q := by
  intro need
  induction need with
  | nil =>
    intro p evs
    exact ⟨[], by simp [phase2], by simp⟩
  | cons fund rest ih =>
    intro p evs
    simp only [phase2]
    split
    · exact ⟨[], by simp, by simp⟩
    · rename_i shares hsc
      split
      · exact ⟨[], by simp, by simp⟩
      · rename_i pr hpr
        split
        · exact ⟨[], by simp, by simp⟩
        · split
          · exact ⟨[Event.buyEv fund (pyInt ((wc - pr * (shares : ℚ)) / pr))],
              by simp, by simp⟩
          · rename_i p1 hbb
            rcases @ih p1
                (evs ++ [Event.buyEv fund (pyInt ((wc - pr * (shares : ℚ)) / pr))])
              with ⟨b, hb, hall⟩
            refine ⟨Event.buyEv fund (pyInt ((wc - pr * (shares : ℚ)) / pr)) :: b,
              ?_, ?_⟩
            · rw [hb, List.append_assoc]
              rfl
            · intro e he
              rcases List.mem_cons.mp he with rfl | he'
              · exact ⟨fund, pyInt ((wc - pr * (shares : ℚ)) / pr), rfl⟩
              · exact hall e he'

/-- Claim C2: in every run of `balance_portfolio`, the instruction trace
splits as a block of `bulk_sell` instructions followed by a block of
`bulk_buy` instructions — under-target symbols are only queued during the
first pass and bought in the second, so no buy ever precedes a sell within
one rebalance. -/
theorem claim_C2_two_phase (p : Portfolio) (w : ℚ) (d : String) :
    ∃ sells buys,
      (balance_portfolio p w d).2 = sells ++ buys ∧
      (∀ e, e ∈ sells → ∃ f q, e = Event.sellEv f q) ∧
      (∀ e, e ∈ buys → ∃ f q, e = Event.buyEv f q) := by
  unfold balance_portfolio
  split
  · exact ⟨[], [], by simp, by simp, by simp⟩
  · split
    · exact ⟨[], [], by simp, by simp, by simp⟩
    · rename_i hv hhv
      split
      · exact ⟨[], [], by simp, by simp, by simp⟩
      · rename_i m hfme
        split
        · exact ⟨[], [], by simp, by simp, by simp⟩
        · split
          · rename_i e evs hph
            rcases @phase1_trace d ((p.cash + hv) * w)
                (p.portfolio.map Prod.fst) p [] [] with ⟨s, hs, hall⟩
            rw [hph] at hs
            simp only [List.nil_append] at hs
            refine ⟨s, [], ?_, hall, by simp⟩
            simpa using hs
          · rename_i p1 need evs hph
            rcases @phase1_trace d ((p.cash + hv) * w)
                (p.portfolio.map Prod.fst) p [] [] with ⟨s, hs, hall⟩
            rw [hph] at hs
            simp only [List.nil_append] at hs
            rcases @phase2_trace d ((p.cash + hv) * w) need p1 evs with ⟨b, hb, hallb⟩
            refine ⟨s, b, ?_, hall, hallb⟩
            rw [hb, hs]

/-- Claim C3 (code bug): on a date with no matching price row, `get_price`
returns `None` (the handler's dangling `ValueError` raises nothing) instead
of failing with a distinguishable error, and `get_holdings_value` then dies
with a `TypeError` from `shares * None` instead of a structured
`PriceNotFound`. -/
theorem claim_C3_sentinel :
    get_price p_gap "X" "1999-01-01" = none ∧
    get_holdings_value p_gap "1999-01-01" = Except.error PyError.typeError := by
  constructor
  · rfl
  · rfl

/-- Claim C8 counterexample: on a portfolio with no holdings,
`find_most_expensive` returns the numeric value `0` instead of failing
with `EmptyPortfolio`, and in general it returns a price, not a symbol. -/
theorem claim_C8_counterexample :
    find_most_expensive p_none8 "d" = Except.ok 0 := by
  rfl

/-- Claim C8 as amended: `find_most_expensive` returns the running maximum
price (a number, not the symbol): the result bounds the price of every held
symbol, is `0` or an attained price, and is `0` (not an `EmptyPortfolio`
failure) on an empty portfolio. -/
theorem claim_C8_max_price (p : Portfolio) (d : String) (m : ℚ)
    (hm : find_most_expensive p d = Except.ok m) :
    0 ≤ m ∧
    (∀ sym h pr, (sym, h) ∈ p.portfolio →
      get_price_data p.data sym d = some pr → pr ≤ m) ∧
    (m = 0 ∨ ∃ sym h, (sym, h) ∈ p.portfolio ∧
      get_price_data p.data sym d = some m) ∧
    (p.portfolio = [] → m = 0) := by
  have hm' : fme_scan p.data d p.portfolio 0 = Except.ok m := hm
  refine ⟨fme_scan_le hm', fun sym h pr hmem hpr => fme_scan_bound hm' sym h hmem pr hpr,
    fme_scan_attained hm', fun hemp => ?_⟩
  rw [hemp] at hm'
  simp only [fme_scan, Except.ok.injEq] at hm'
  exact hm'.symm

/-- Claim C8 witness: on a two-symbol portfolio priced 5 and 9, the amended
statement holds of the returned maximum price 9. -/
theorem claim_C8_max_price_witness :
    0 ≤ (9 : ℚ) ∧
    (∀ sym h pr, (sym, h) ∈ p_two.portfolio →
      get_price_data p_two.data sym "d" = some pr → pr ≤ 9) ∧
    ((9 : ℚ) = 0 ∨ ∃ sym h, (sym, h) ∈ p_two.portfolio ∧
      get_price_data p_two.data sym "d" = some 9) ∧
    (p_two.portfolio = [] → (9 : ℚ) = 0) :=
  claim_C8_max_price p_two "d" 9 (by rfl)

/-- Claim C9 counterexample: on an empty portfolio, `even_balance` fails
with the `ZeroDivisionError` from `1 / len(self.portfolio.keys())`, not
with a structured `EmptyPortfolio` error. -/
theorem claim_C9_counterexample :
    even_balance p_none9 "d" = (Except.error PyError.zeroDivisionError, []) := by
  rfl

/-- Claim C9 as amended: for a portfolio with at least one holding,
`even_balance` behaves exactly as `balance_portfolio` at weight
`1 / holdings_count`; on an empty portfolio it raises `ZeroDivisionError`
rather than a structured `EmptyPortfolio` error. -/
theorem claim_C9_delegates (p : Portfolio) (d : String) (hne : p.portfolio ≠ []) :
    even_balance p d = balance_portfolio p (1 / (p.portfolio.length : ℚ)) d := by
  unfold even_balance
  rw [if_neg (fun h0 => hne (List.length_eq_zero.mp h0))]

/-- Claim C9 witness: the delegation at a concrete one-symbol portfolio. -/
theorem claim_C9_delegates_witness :
    even_balance p_one9 "d" =
      balance_portfolio p_one9 (1 / (p_one9.portfolio.length : ℚ)) "d" :=
  claim_C9_delegates p_one9 "d" (by simp [p_one9])

/-- Claim C10: `buy` and `bulk_buy` require the symbol to already be in the
holdings dict — on an absent (but priced) symbol with sufficient cash they
raise `KeyError` instead of creating a zeroed holding or silently doing
nothing — while `sell` and `bulk_sell` check membership and leave the
state unchanged. -/
theorem claim_C10_membership (p : Portfolio) (sym d : String) (pr : ℚ)
    (hpr : get_price p sym d = some pr)
    (habs : dictGet p.portfolio sym = none) :
    (pr ≤ p.cash → buy p sym d = Except.error (PyError.keyError sym)) ∧
    (∀ q : ℤ, pr * (q : ℚ) ≤ p.cash →
      bulk_buy p sym q d = Except.error (PyError.keyError sym)) ∧
    sell p sym d = Except.ok p ∧
    (∀ q : ℤ, bulk_sell p sym q d = Except.ok p) := by
  refine ⟨?_, ?_, ?_, ?_⟩
  · intro hcash
    simp only [buy, hpr, ge_iff_le, hcash, if_true, habs]
  · intro q hcash
    simp only [bulk_buy, hpr, ge_iff_le, hcash, if_true, habs]
  · simp only [sell, habs]
  · intro q
    simp only [bulk_sell, habs]

/-- Claim C10 witness: `A` is priced 10 but absent from the holdings of
`p_abs`, whose cash is 100. -/
theorem claim_C10_membership_witness :
    ((10 : ℚ) ≤ p_abs.cash → buy p_abs "A" "d" = Except.error (PyError.keyError "A")) ∧
    (∀ q : ℤ, (10 : ℚ) * (q : ℚ) ≤ p_abs.cash →
      bulk_buy p_abs "A" q "d" = Except.error (PyError.keyError "A")) ∧
    sell p_abs "A" "d" = Except.ok p_abs ∧
    (∀ q : ℤ, bulk_sell p_abs "A" q "d" = Except.ok p_abs) :=
  claim_C10_membership p_abs "A" "d" 10 (by rfl) (by rfl)

/-- Claim C4: for a held symbol with resolved price `pr`, `buy` with
`cash >= pr` increments that holding's shares by exactly 1 and its cost
basis by exactly `pr` and decrements cash by exactly `pr`, leaving every
other holding, the data and the deposit tracker alone; with `cash < pr` it
leaves the entire state unchanged (a declined trade, not an error). -/
theorem claim_C4_buy (p : Portfolio) (sym d : String) (h0 : Holding) (pr : ℚ)
    (hh : dictGet p.portfolio sym = some h0)
    (hpr : get_price p sym d = some pr) :
    (pr ≤ p.cash →
      ∃ p', buy p sym d = Except.ok p' ∧
        dictGet p'.portfolio sym = some ⟨h0.shares + 1, h0.cost + pr⟩ ∧
        p'.cash = p.cash - pr ∧
        (∀ s, s ≠ sym → dictGet p'.portfolio s = dictGet p.portfolio s) ∧
        p'.data = p.data ∧ p'.deposit_track = p.deposit_track) ∧
    (p.cash < pr → buy p sym d = Except.ok p) := by
  constructor
  · intro hcash
    refine ⟨{ p with
        portfolio := updateH p.portfolio sym
          (fun hh => ⟨hh.shares + 1, hh.cost + pr⟩),
        cash := p.cash - pr }, ?_, ?_, rfl, ?_, rfl, rfl⟩
    · simp only [buy, hpr, ge_iff_le, hcash, if_true, hh]
    · dsimp only
      rw [dictGet_updateH, if_pos rfl, hh]
      rfl
    · intro s hs
      dsimp only
      rw [dictGet_updateH, if_neg hs]
  · intro hcash
    simp only [buy, hpr, ge_iff_le, if_neg (not_le.mpr hcash)]

/-- Claim C4 witness: scenario 1 — cash 1000, `A` priced 100: the theorem
applies and the declined-trade branch is available at its hypothesis. -/
theorem claim_C4_buy_witness :
    ((100 : ℚ) ≤ p_scn1.cash →
      ∃ p', buy p_scn1 "A" "d" = Except.ok p' ∧
        dictGet p'.portfolio "A" = some ⟨(⟨0, 0⟩ : Holding).shares + 1,
          (⟨0, 0⟩ : Holding).cost + 100⟩ ∧
        p'.cash = p_scn1.cash - 100 ∧
        (∀ s, s ≠ "A" → dictGet p'.portfolio s = dictGet p_scn1.portfolio s) ∧
        p'.data = p_scn1.data ∧ p'.deposit_track = p_scn1.deposit_track) ∧
    (p_scn1.cash < 100 → buy p_scn1 "A" "d" = Except.ok p_scn1) :=
  claim_C4_buy p_scn1 "A" "d" ⟨0, 0⟩ 100 (by rfl) (by rfl)

/-- Claim C5: for a held symbol with at least one share and resolved price
`pr`, `sell` decrements shares by exactly 1, decrements the cost basis by
exactly the pre-decrement average cost `cost / shares`, and increments cash
by exactly `pr`, leaving everything else alone; with `shares < 1` the whole
state is unchanged. -/
theorem claim_C5_sell (p : Portfolio) (sym d : String) (h0 : Holding) (pr : ℚ)
    (hh : dictGet p.portfolio sym = some h0)
    (hpr : get_price p sym d = some pr) :
    (1 ≤ h0.shares →
      ∃ p', sell p sym d = Except.ok p' ∧
        dictGet p'.portfolio sym =
          some ⟨h0.shares - 1, h0.cost - h0.cost / (h0.shares : ℚ)⟩ ∧
        p'.cash = p.cash + pr ∧
        (∀ s, s ≠ sym → dictGet p'.portfolio s = dictGet p.portfolio s) ∧
        p'.data = p.data ∧ p'.deposit_track = p.deposit_track) ∧
    (h0.shares < 1 → sell p sym d = Except.ok p) := by
  constructor
  · intro hsh
    refine ⟨{ p with
        portfolio := updateH p.portfolio sym
          (fun hh => ⟨hh.shares - 1, hh.cost - h0.cost / (h0.shares : ℚ)⟩),
        cash := p.cash + pr }, ?_, ?_, rfl, ?_, rfl, rfl⟩
    · simp only [sell, hh, ge_iff_le, hsh, if_true, hpr]
    · dsimp only
      rw [dictGet_updateH, if_pos rfl, hh]
      rfl
    · intro s hs
      dsimp only
      rw [dictGet_updateH, if_neg hs]
  · intro hsh
    simp only [sell, hh, ge_iff_le, if_neg (not_le.mpr hsh)]

/-- Claim C5 witness: scenario 2 — cash 900, one share of `A` at cost basis
100, price 100: the theorem applies (and `100 - 100/1 = 0`, `900 + 100 =
1000`, matching the spec scenario). -/
theorem claim_C5_sell_witness :
    ((1 : ℤ) ≤ (⟨1, 100⟩ : Holding).shares →
      ∃ p', sell p_scn2 "A" "d" = Except.ok p' ∧
        dictGet p'.portfolio "A" = some ⟨(⟨1, 100⟩ : Holding).shares - 1,
          (⟨1, 100⟩ : Holding).cost -
            (⟨1, 100⟩ : Holding).cost / (((⟨1, 100⟩ : Holding).shares : ℤ) : ℚ)⟩ ∧
        p'.cash = p_scn2.cash + 100 ∧
        (∀ s, s ≠ "A" → dictGet p'.portfolio s = dictGet p_scn2.portfolio s) ∧
        p'.data = p_scn2.data ∧ p'.deposit_track = p_scn2.deposit_track) ∧
    ((⟨1, 100⟩ : Holding).shares < 1 → sell p_scn2 "A" "d" = Except.ok p_scn2) :=
  claim_C5_sell p_scn2 "A" "d" ⟨1, 100⟩ 100 (by rfl) (by rfl)

/-- Claim C6: starting from a state whose holdings all have non-negative
share counts, every operation of the public interface leaves every
holding's share count non-negative — `bulk_sell` and `max_sell` without
any side condition (they never drive shares below zero), the buying
operations under their interface preconditions (a non-negative quantity
for `bulk_buy`, a non-negative amount/cash and positively priced data for
the quantity-deriving `value_buy`, `max_buy` and `balance_portfolio`). -/
theorem claim_C6_nonneg_shares (p : Portfolio) (hp : SharesNonneg p) :
    (∀ sym d p', buy p sym d = Except.ok p' → SharesNonneg p') ∧
    (∀ sym d p', sell p sym d = Except.ok p' → SharesNonneg p') ∧
    (∀ sym q d p', 0 ≤ q → bulk_buy p sym q d = Except.ok p' → SharesNonneg p') ∧
    (∀ sym q d p', bulk_sell p sym q d = Except.ok p' → SharesNonneg p') ∧
    (∀ sym d p', 0 ≤ p.cash → PosData p.data →
      max_buy p sym d = Except.ok p' → SharesNonneg p') ∧
    (∀ sym d p', max_sell p sym d = Except.ok p' → SharesNonneg p') ∧
    (∀ sym a d p', 0 ≤ a → PosData p.data →
      value_buy p sym a d = Except.ok p' → SharesNonneg p') ∧
    (∀ w d p', PosData p.data →
      (balance_portfolio p w d).1 = Except.ok p' → SharesNonneg p') ∧
    (∀ a, SharesNonneg (p.deposit a)) ∧
    (∀ sym, SharesNonneg (p.add sym)) ∧
    (∀ sym, SharesNonneg (p.remove sym)) := by
  refine ⟨?_, ?_, ?_, ?_, ?_, ?_, ?_, ?_, ?_, ?_, ?_⟩
  · intro sym d p' h
    exact buy_nonneg hp h
  · intro sym d p' h
    exact sell_nonneg hp h
  · intro sym q d p' hq h
    exact bulk_buy_nonneg hp (fun h0 hd => by have h1 := hp sym h0 hd; omega) h
  · intro sym q d p' h
    exact bulk_sell_nonneg hp h
  · intro sym d p' hc hpos h
    exact max_buy_nonneg hp hc hpos h
  · intro sym d p' h
    exact max_sell_nonneg hp h
  · intro sym a d p' ha hpos h
    exact value_buy_nonneg hp ha hpos h
  · intro w d p' hpos h
    exact balance_nonneg hp hpos h
  · intro a s hh hget
    exact hp s hh hget
  · intro sym s hh hget
    unfold Portfolio.add at hget
    split at hget
    · exact hp s hh hget
    · dsimp only at hget
      cases hd : dictGet p.portfolio s with
      | some w =>
        rw [dictGet_append_of_some hd] at hget
        rw [show hh = w from ((Option.some.injEq _ _).mp hget).symm]
        exact hp s w hd
      | none =>
        rw [dictGet_append_of_none hd] at hget
        split at hget
        · rw [show hh = (⟨0, 0⟩ : Holding) from ((Option.some.injEq _ _).mp hget).symm]
        · simp at hget
  · intro sym s hh hget
    unfold Portfolio.remove at hget
    dsimp only at hget
    rw [dictGet_removeKey] at hget
    split at hget
    · simp at hget
    · exact hp s hh hget

/-- Claim C6 witness: the hypothesis and all conjuncts instantiated at a
concrete (empty-holdings) portfolio with priced data. -/
theorem claim_C6_nonneg_shares_witness :
    SharesNonneg p_none6 ∧
    ((∀ sym d p', buy p_none6 sym d = Except.ok p' → SharesNonneg p') ∧
    (∀ sym d p', sell p_none6 sym d = Except.ok p' → SharesNonneg p') ∧
    (∀ sym q d p', 0 ≤ q → bulk_buy p_none6 sym q d = Except.ok p' → SharesNonneg p') ∧
    (∀ sym q d p', bulk_sell p_none6 sym q d = Except.ok p' → SharesNonneg p') ∧
    (∀ sym d p', 0 ≤ p_none6.cash → PosData p_none6.data →
      max_buy p_none6 sym d = Except.ok p' → SharesNonneg p') ∧
    (∀ sym d p', max_sell p_none6 sym d = Except.ok p' → SharesNonneg p') ∧
    (∀ sym a d p', 0 ≤ a → PosData p_none6.data →
      value_buy p_none6 sym a d = Except.ok p' → SharesNonneg p') ∧
    (∀ w d p', PosData p_none6.data →
      (balance_portfolio p_none6 w d).1 = Except.ok p' → SharesNonneg p') ∧
    (∀ a, SharesNonneg (p_none6.deposit a)) ∧
    (∀ sym, SharesNonneg (p_none6.add sym)) ∧
    (∀ sym, SharesNonneg (p_none6.remove sym))) := by
  have hp : SharesNonneg p_none6 := by
    intro s h hd
    simp [p_none6, dictGet] at hd
  exact ⟨hp, claim_C6_nonneg_shares p_none6 hp⟩

/-- Claim C7: the cost-basis-zero invariant (a holding with zero shares has
zero cost basis) is preserved, together with non-negative share counts, by
every trade and rebalance operation of the interface — unconditionally for
the selling operations, under the interface preconditions for the buying
ones. -/
theorem claim_C7_costzero (p : Portfolio) (hp : SharesNonneg p) (hc : CostZero p) :
    (∀ sym d p', buy p sym d = Except.ok p' → CostZero p') ∧
    (∀ sym d p', sell p sym d = Except.ok p' → CostZero p') ∧
    (∀ sym q d p', 0 ≤ q → bulk_buy p sym q d = Except.ok p' → CostZero p') ∧
    (∀ sym q d p', bulk_sell p sym q d = Except.ok p' → CostZero p') ∧
    (∀ sym d p', 0 ≤ p.cash → PosData p.data →
      max_buy p sym d = Except.ok p' → CostZero p') ∧
    (∀ sym d p', max_sell p sym d = Except.ok p' → CostZero p') ∧
    (∀ sym a d p', 0 ≤ a → PosData p.data →
      value_buy p sym a d = Except.ok p' → CostZero p') ∧
    (∀ w d p', PosData p.data →
      (balance_portfolio p w d).1 = Except.ok p' → CostZero p') := by
  refine ⟨?_, ?_, ?_, ?_, ?_, ?_, ?_, ?_⟩
  · intro sym d p' h
    exact buy_costzero hp hc h
  · intro sym d p' h
    exact sell_costzero hc h
  · intro sym q d p' hq h
    exact bulk_buy_costzero hp hc (fun h0 hd => Or.inl hq) h
  · intro sym q d p' h
    exact bulk_sell_costzero hc h
  · intro sym d p' hcash hpos h
    exact max_buy_costzero hp hc hcash hpos h
  · intro sym d p' h
    exact max_sell_costzero hc h
  · intro sym a d p' ha hpos h
    exact value_buy_costzero hp hc ha hpos h
  · intro w d p' hpos h
    exact (balance_inv hp hc hpos h).2

/-- Claim C7 witness: the hypotheses and all conjuncts instantiated at a
concrete (empty-holdings) portfolio with priced data. -/
theorem claim_C7_costzero_witness :
    SharesNonneg p_none7 ∧ CostZero p_none7 ∧
    ((∀ sym d p', buy p_none7 sym d = Except.ok p' → CostZero p') ∧
    (∀ sym d p', sell p_none7 sym d = Except.ok p' → CostZero p') ∧
    (∀ sym q d p', 0 ≤ q → bulk_buy p_none7 sym q d = Except.ok p' → CostZero p') ∧
    (∀ sym q d p', bulk_sell p_none7 sym q d = Except.ok p' → CostZero p') ∧
    (∀ sym d p', 0 ≤ p_none7.cash → PosData p_none7.data →
      max_buy p_none7 sym d = Except.ok p' → CostZero p') ∧
    (∀ sym d p', max_sell p_none7 sym d = Except.ok p' → CostZero p') ∧
    (∀ sym a d p', 0 ≤ a → PosData p_none7.data →
      value_buy p_none7 sym a d = Except.ok p' → CostZero p') ∧
    (∀ w d p', PosData p_none7.data →
      (balance_portfolio p_none7 w d).1 = Except.ok p' → CostZero p')) := by
  have hp : SharesNonneg p_none7 := by
    intro s h hd
    simp [p_none7, dictGet] at hd
  have hc : CostZero p_none7 := by
    intro s h hd
    simp [p_none7, dictGet] at hd
  exact ⟨hp, hc, claim_C7_costzero p_none7 hp hc⟩

lemma p_over_hv : get_holdings_value p_over "d" = Except.ok 100 := by
  simp [get_holdings_value, holdings_value_sum, get_price_data, find_data, dictGet, p_over]
  norm_num

lemma p_over_fme : find_most_expensive p_over "d" = Except.ok 10 := by rfl

lemma p_over_ph1 : phase1 "d" 60 ["A", "B"] p_over [] [] =
    (Except.ok (p_over_after, ["B"]), [Event.sellEv "A" 4]) := by
  simp only [p_over, p_over_after]
  repeat (simp [phase1, get_share_count, get_price, get_price_data, find_data, dictGet,
    bulk_sell, updateH, pyInt]; try norm_num)

lemma p_over_ph2 : phase2 "d" 60 ["B"] p_over_after [Event.sellEv "A" 4] =
    (Except.ok p_over_after, [Event.sellEv "A" 4, Event.buyEv "B" 60]) := by
  simp only [p_over_after]
  repeat (simp [phase2, get_share_count, get_price, get_price_data, find_data, dictGet,
    bulk_buy, updateH, pyInt]; try norm_num)

/-- Claim C1 (code bug): the weight validation in `balance_portfolio`
compares `weight * holdings_count` against `100` although weights are given
as decimals (per the source's own comment), so at weight `3/5` with two
holdings — where `3/5 * 2 > 1.0` is supposed to fail with `InvalidWeight`
and mutate nothing — the run instead proceeds with the rebalance and sells
four shares of `A` (10 shares before, 6 after). -/
theorem claim_C1_weight_guard :
    1 < (3/5 : ℚ) * (p_over.portfolio.length : ℚ) ∧
    (balance_portfolio p_over (3/5) "d").1 = Except.ok p_over_after ∧
    dictGet p_over.portfolio "A" = some ⟨10, 50⟩ ∧
    dictGet p_over_after.portfolio "A" = some ⟨6, 30⟩ ∧
    p_over_after ≠ p_over := by
  refine ⟨by norm_num [p_over], ?_, by rfl, by rfl, ?_⟩
  · unfold balance_portfolio
    rw [p_over_hv, p_over_fme]
    dsimp only
    rw [if_neg (show ¬ (100 : ℚ) < 3 / 5 * (p_over.portfolio.length : ℚ) by
      norm_num [p_over])]
    rw [show (p_over.cash + 100) * ((3 : ℚ)/5) = 60 by norm_num [p_over]]
    rw [if_neg (show ¬ (60 : ℚ) < 10 by norm_num)]
    rw [show p_over.portfolio.map Prod.fst = ["A", "B"] from rfl]
    rw [p_over_ph1]
    dsimp only
    rw [p_over_ph2]
  · simp [p_over, p_over_after]
